import Mathlib

/-!
Verification of the downloads-organiser (src/organiser.py) against its
specification.  The Python code is shallowly embedded: strings are lists of
characters, paths are lists of path components, the filesystem is an explicit
state record, clock values are integers (only ordering and subtraction of
timestamps is used by the code), and the fallible primitives (mkdir, move)
are driven by an explicit environment oracle.  The unbounded collision loop
of `_resolve_destination` is embedded with a fuel parameter; running out of
fuel (result `none`) models the loop still running, it is not an error value.
-/

namespace Organiser

/-- A Python string, modelled as its list of characters. -/
abbrev Str := List Char

/-- A filesystem path, modelled as its list of components. -/
abbrev FPath := List Str

/-! ## Python string primitives used by the source -/

/-- Model of Python `str.strip()` (whitespace trimmed from both ends;
ASCII whitespace, per `Char.isWhitespace`). -/
def pyStrip (s : Str) : Str :=
  ((s.dropWhile Char.isWhitespace).reverse.dropWhile Char.isWhitespace).reverse

/-- Model of Python `str.lower()` (ASCII letters; the extensions handled by
the program are ASCII). -/
def pyLower (s : Str) : Str :=
  s.map Char.toLower

/-- Model of Python `str.startswith(".")`. -/
def startsWithDot (s : Str) : Bool :=
  match s with
  | [] => false
  | c :: _ => c = '.'

/-- Split a string on the dot character; mirrors Python `str.split(".")`
(always returns at least one piece). -/
def splitOnDot : Str → List Str
  | [] => [[]]
  | c :: rest =>
    if c = '.' then [] :: splitOnDot rest
    else
      match splitOnDot rest with
      | [] => [[c]]
      | piece :: pieces => (c :: piece) :: pieces

/-- Model of CPython `pathlib.PurePath.suffixes` for a bare file name:
if the name ends with a dot the result is empty; otherwise leading dots are
stripped, the rest is split on dots, and every piece after the first yields
one dot-prefixed suffix. -/
def suffixes (name : Str) : List Str :=
  if name.getLast? = some '.' then []
  else ((splitOnDot (name.dropWhile (fun c => c = '.'))).tail).map (fun s => '.' :: s)

/-- Model of CPython `pathlib.PurePath.suffix`: the part of the name from its
last dot onward, provided that dot is neither the first nor the last
character; empty otherwise. -/
def pySuffix (name : Str) : Str :=
  let revTail := name.reverse.takeWhile (fun c => ¬ c = '.')
  if revTail.length = name.length then []
  else if revTail.length = 0 then []
  else if revTail.length = name.length - 1 then []
  else '.' :: revTail.reverse

/-- Model of CPython `pathlib.PurePath.stem`: the name with `pySuffix`
removed (the name itself when the suffix is empty). -/
def pyStem (name : Str) : Str :=
  if pySuffix name = [] then name else name.take (name.length - (pySuffix name).length)

/-- Decimal rendering of a natural number, as used by the f-string
interpolation of the collision counter. -/
def natStr (n : Nat) : Str :=
  (Nat.repr n).data

/-! ## Source constants (organiser.py lines 15-42) -/

/-- DEFAULT_MAPPINGS from the source, as an ordered association list
(Python dicts preserve insertion order). -/
def DEFAULT_MAPPINGS : List (Str × List Str) :=
  [ ("Images".data, ["jpg".data, "jpeg".data, "png".data, "gif".data, "webp".data,
      "tiff".data, "svg".data, "heic".data]),
    ("Videos".data, ["mp4".data, "mov".data, "mkv".data, "avi".data, "webm".data]),
    ("Audio".data, ["mp3".data, "wav".data, "m4a".data, "flac".data, "aac".data,
      "ogg".data]),
    ("Documents".data, ["pdf".data, "doc".data, "docx".data, "txt".data, "rtf".data,
      "odt".data, "pages".data, "md".data]),
    ("Spreadsheets".data, ["xls".data, "xlsx".data, "csv".data, "ods".data]),
    ("Presentations".data, ["ppt".data, "pptx".data, "key".data]),
    ("Archives".data, ["zip".data, "rar".data, "7z".data, "tar".data, "gz".data,
      "bz2".data, "tar.gz".data, "tar.bz2".data]),
    ("Code".data, ["py".data, "js".data, "ts".data, "json".data, "yml".data,
      "yaml".data, "toml".data, "html".data, "css".data, "sh".data, "go".data,
      "rs".data]),
    ("Installers".data, ["dmg".data, "pkg".data, "app".data, "exe".data, "msi".data]),
    ("Fonts".data, ["ttf".data, "otf".data, "woff".data, "woff2".data]) ]

/-- TRANSIENT_EXTENSIONS from the source. -/
def TRANSIENT_EXTENSIONS : List Str :=
  [".download".data, ".crdownload".data, ".part".data, ".partial".data, ".tmp".data]

/-- SKIP_NAMES from the source. -/
def SKIP_NAMES : List Str :=
  [".DS_Store".data]

/-- The Config dataclass (organiser.py lines 45-55).  Float-valued fields of
the source hold durations compared only by subtraction and ordering; they are
modelled as integers. -/
structure Config where
  downloads_dir : FPath
  mappings : List (Str × List Str)
  other_folder : Str := "Other".data
  scan_existing : Bool := true
  watch : Bool := true
  poll_interval_seconds : Int := 3
  min_age_seconds : Int := 3
  ignore_hidden : Bool := true
  dry_run : Bool := false

/-! ## _normalize_extension (organiser.py lines 58-64) -/

/-- Embedding of `_normalize_extension`: strip, lower-case, and ensure the
result is empty or dot-prefixed. -/
def _normalize_extension (ext : Str) : Str :=
  let e := pyLower (pyStrip ext)
  if e = [] then []
  else if startsWithDot e then e
  else '.' :: e

/-! ## _build_extension_map (organiser.py lines 67-72)

Python dicts are modelled as ordered association lists: assignment to an
existing key overwrites its value in place, assignment to a fresh key appends.
-/

/-- Model of `d[k] = v` on a Python dict. -/
def dictInsert (m : List (Str × Str)) (k v : Str) : List (Str × Str) :=
  match m with
  | [] => [(k, v)]
  | (k', v') :: rest => if k' = k then (k, v) :: rest else (k', v') :: dictInsert rest k v

/-- Model of `d.get(k)` / `k in d` on a Python dict. -/
def dictGet? (m : List (Str × Str)) (k : Str) : Option Str :=
  match m with
  | [] => none
  | (k', v') :: rest => if k' = k then some v' else dictGet? rest k

/-- Embedding of `_build_extension_map`: for every (folder, extensions) pair
in iteration order, insert each normalized extension, overwriting previous
writers. -/
def _build_extension_map (mappings : List (Str × List Str)) : List (Str × Str) :=
  mappings.foldl
    (fun m p => p.2.foldl (fun m2 e => dictInsert m2 (_normalize_extension e) p.1) m) []

/-! ## _extension_candidates (organiser.py lines 75-82) -/

/-- The list of joined suffix tails `sfx[i:]` for `i in range(len(sfx))`. -/
def candList (sfx : List Str) : List Str :=
  (List.range sfx.length).map (fun i => (sfx.drop i).flatten)

/-- Embedding of `_extension_candidates`: lower-cased suffixes; a name with
no suffixes yields the single candidate empty string; otherwise every
tail-compound of the suffix list. -/
def _extension_candidates (name : Str) : List Str :=
  let sfx := (suffixes name).map pyLower
  if sfx.isEmpty then [[]] else candList sfx

/-! ## _decide_folder (organiser.py lines 118-126) -/

/-- Stable insertion (descending length) used to model Python
`sorted(candidates, key=len, reverse=True)`.  A stable sort is extensionally
determined by its comparison key, so this insertion sort coincides with the
source's Timsort call. -/
def insLenDesc (x : Str) : List Str → List Str
  | [] => [x]
  | y :: ys => if x.length < y.length then y :: insLenDesc x ys else x :: y :: ys

/-- Model of `sorted(l, key=len, reverse=True)` (stable). -/
def pySortedLenDesc (l : List Str) : List Str :=
  l.foldr insLenDesc []

/-- The `for candidate in ...: if normalized in ext_map: return ...` loop of
`_decide_folder`. -/
def firstMatch (cs : List Str) (ext_map : List (Str × Str)) : Option Str :=
  match cs with
  | [] => none
  | c :: rest =>
    match dictGet? ext_map (_normalize_extension c) with
    | some folder => some folder
    | none => firstMatch rest ext_map

/-- Embedding of `_decide_folder`: try candidates longest first, fall back to
the wildcard (empty-string) entry, then to the catch-all folder. -/
def _decide_folder (name : Str) (ext_map : List (Str × Str)) (other_folder : Str) : Str :=
  match firstMatch (pySortedLenDesc (_extension_candidates name)) ext_map with
  | some folder => folder
  | none =>
    match dictGet? ext_map [] with
    | some folder => folder
    | none => other_folder

/-! ## _resolve_destination (organiser.py lines 85-97) -/

/-- The name `f"{stem}-{index}{suffix}"` probed by the collision loop. -/
def probeName (stem sfx : Str) (index : Nat) : Str :=
  stem ++ '-' :: natStr index ++ sfx

/-- The `while True` collision loop, embedded with fuel; `none` models the
loop still running after `fuel` iterations (the source loop is unbounded). -/
def resolveLoop (existsF : Str → Bool) (stem sfx : Str) : Nat → Nat → Option Str
  | 0, _ => none
  | fuel + 1, index =>
    let candidate := probeName stem sfx index
    if existsF candidate then resolveLoop existsF stem sfx fuel (index + 1)
    else some candidate

/-- Embedding of `_resolve_destination`, relative to an existence oracle for
file names inside the destination directory.  Mirrors the source: the probed
stem is `Path(filename).stem` (only the last suffix removed) while the probed
extension is the concatenation of all suffixes. -/
def _resolve_destination (existsF : Str → Bool) (filename : Str) (fuel : Nat) : Option Str :=
  if existsF filename then
    resolveLoop existsF (pyStem filename) ((suffixes filename).flatten) fuel 1
  else some filename

/-! ## Filesystem state, _should_skip, organize_file (organiser.py lines 100-152) -/

/-- Filesystem state: the set of regular files, the set of directories, and
the modification time of each path (`none` models a vanished file, raising
FileNotFoundError on stat). -/
structure FSState where
  files : List FPath
  dirs : List FPath
  mtime : FPath → Option Int

/-- Model of `Path.exists()`. -/
def fsExists (st : FSState) (p : FPath) : Bool :=
  p ∈ st.files || p ∈ st.dirs

/-- Model of `mkdir(parents=True, exist_ok=True)`: every missing ancestor of
the new directory (and the directory itself) is added. -/
def mkdirParents (dirs : List FPath) (p : FPath) : List FPath :=
  dirs ++ ((List.range p.length).map (fun i => p.take (i + 1))).filter (fun q => q ∉ dirs)

/-- Environment oracle deciding which fallible filesystem primitives raise
(permission denied, cross-device failure, and so on). -/
structure Env where
  mkdirFails : FPath → Bool
  moveFails : FPath → FPath → Bool

/-- Model of `shutil.move` on the state (the moved file keeps its mtime). -/
def moveFile (st : FSState) (src dst : FPath) : FSState :=
  { files := dst :: st.files.filter (fun q => ¬ q = src),
    dirs := st.dirs,
    mtime := fun p =>
      if p = dst then st.mtime src else if p = src then none else st.mtime p }

/-- Embedding of `_should_skip` for the file `dir/name` at clock value `now`:
skip-set, hidden-file policy, transient extension, not-a-regular-file, and
minimum-age checks, in source order. -/
def _should_skip (dir : FPath) (name : Str) (config : Config) (st : FSState)
    (now : Int) : Bool :=
  if name ∈ SKIP_NAMES then true
  else if config.ignore_hidden && startsWithDot name then true
  else if pyLower (pySuffix name) ∈ TRANSIENT_EXTENSIONS then true
  else if ¬ (dir ++ [name]) ∈ st.files then true
  else
    match st.mtime (dir ++ [name]) with
    | none => true
    | some t => now - t < config.min_age_seconds

/-- The tail of `organize_file` after the destination directory is known to
exist: resolve the destination, drop no-op self-moves, honour dry-run, and
perform the move with its failure absorbed.  `st1` is the state after the
(possible) directory creation. -/
def organizeMove (dir : FPath) (name : Str) (config : Config) (st1 : FSState)
    (env : Env) (dest_dir : FPath) (fuel : Nat) :
    Option (Except Str (Option FPath × FSState)) :=
  match _resolve_destination (fun f => fsExists st1 (dest_dir ++ [f])) name fuel with
  | none => none
  | some rn =>
    if dest_dir ++ [rn] = dir ++ [name] then some (.ok (none, st1))
    else if config.dry_run then some (.ok (some (dest_dir ++ [rn]), st1))
    else if env.moveFails (dir ++ [name]) (dest_dir ++ [rn]) then some (.ok (none, st1))
    else some (.ok (some (dest_dir ++ [rn]),
      moveFile st1 (dir ++ [name]) (dest_dir ++ [rn])))

/-- The destination directory `downloads_dir / folder_name` computed by
`organize_file`. -/
def destDirOf (config : Config) (name : Str) (ext_map : List (Str × Str)) : FPath :=
  config.downloads_dir ++ [_decide_folder name ext_map config.other_folder]

/-- Embedding of `organize_file` for the file `dir/name`.  The result is
`none` when the collision loop ran out of fuel (models divergence),
`some (.error e)` when an uncaught exception propagates to the caller, and
`some (.ok (reported destination, new state))` otherwise.  Note the source
creates the destination directory before the dry-run check, and its
try/except guards only the `shutil.move` call. -/
def organize_file (dir : FPath) (name : Str) (config : Config)
    (ext_map : List (Str × Str)) (st : FSState) (env : Env) (now : Int)
    (fuel : Nat) : Option (Except Str (Option FPath × FSState)) :=
  if _should_skip dir name config st now then some (.ok (none, st))
  else if fsExists st (destDirOf config name ext_map) then
    organizeMove dir name config st env (destDirOf config name ext_map) fuel
  else if env.mkdirFails (destDirOf config name ext_map) then
    some (.error ("mkdir failed".data))
  else
    organizeMove dir name config
      { st with dirs := mkdirParents st.dirs (destDirOf config name ext_map) }
      env (destDirOf config name ext_map) fuel

/-! ## Result projections used by the concrete counterexamples -/

/-- The reported destination of an `organize_file` run that returned
normally. -/
def runDest (r : Option (Except Str (Option FPath × FSState))) : Option (Option FPath) :=
  match r with
  | some (.ok (d, _)) => some d
  | _ => none

/-- The directory list of the state after an `organize_file` run that
returned normally. -/
def runDirs (r : Option (Except Str (Option FPath × FSState))) : Option (List FPath) :=
  match r with
  | some (.ok (_, st)) => some st.dirs
  | _ => none

/-- The file list of the state after an `organize_file` run that returned
normally. -/
def runFiles (r : Option (Except Str (Option FPath × FSState))) : Option (List FPath) :=
  match r with
  | some (.ok (_, st)) => some st.files
  | _ => none

/-- Whether an `organize_file` run raised an exception. -/
def runRaised (r : Option (Except Str (Option FPath × FSState))) : Bool :=
  match r with
  | some (.error _) => true
  | _ => false

/-! ## Character-level lemmas about Python lower-casing -/

/-- Characters outside the ASCII upper-case range are fixed by lower-casing. -/
theorem charToLower_eq_self {c : Char} (h : ¬ (65 ≤ c.toNat ∧ c.toNat ≤ 90)) :
    Char.toLower c = c := by
  unfold Char.toLower
  exact if_neg h

/-- Lower-casing an ASCII upper-case character adds 32 to its code point. -/
theorem charToLower_toNat_of_upper {c : Char} (h : 65 ≤ c.toNat ∧ c.toNat ≤ 90) :
    (Char.toLower c).toNat = c.toNat + 32 := by
  unfold Char.toLower
  rw [if_pos h]
  have hv : (c.toNat + 32).isValidChar := Or.inl (by omega)
  rw [Char.ofNat, dif_pos hv]
  rfl

/-- Lower-casing is idempotent on characters. -/
theorem charToLower_idem (c : Char) : Char.toLower (Char.toLower c) = Char.toLower c := by
  by_cases h : 65 ≤ c.toNat ∧ c.toNat ≤ 90
  · have ht := charToLower_toNat_of_upper h
    exact charToLower_eq_self (by omega)
  · rw [charToLower_eq_self h]
    exact charToLower_eq_self h

/-- Lower-casing never turns a non-whitespace character into whitespace. -/
theorem charToLower_not_ws {c : Char} (h : c.isWhitespace = false) :
    (Char.toLower c).isWhitespace = false := by
  by_cases hu : 65 ≤ c.toNat ∧ c.toNat ≤ 90
  · have ht := charToLower_toNat_of_upper hu
    unfold Char.isWhitespace
    simp only [Bool.or_eq_false_iff, decide_eq_false_iff_not]
    refine ⟨⟨⟨?_, ?_⟩, ?_⟩, ?_⟩ <;>
      · intro heq
        have h2 := congrArg Char.toNat heq
        rw [ht] at h2
        first
          | rw [show Char.toNat ' ' = 32 from rfl] at h2
          | rw [show Char.toNat '\t' = 9 from rfl] at h2
          | rw [show Char.toNat '\r' = 13 from rfl] at h2
          | rw [show Char.toNat '\n' = 10 from rfl] at h2
        omega
  · rw [charToLower_eq_self hu]
    exact h

/-! ## Lemmas about pyStrip and pyLower -/

/-- The head of a dropWhile result never satisfies the dropped predicate. -/
theorem head?_dropWhile {p : Char → Bool} :
    ∀ (l : Str) (c : Char), (l.dropWhile p).head? = some c → p c = false := by
  intro l
  induction l with
  | nil => intro c h; simp [List.dropWhile] at h
  | cons a l ih =>
    intro c h
    by_cases hp : p a
    · rw [List.dropWhile_cons_of_pos hp] at h
      exact ih c h
    · rw [List.dropWhile_cons_of_neg hp] at h
      simp at h
      rw [← h]
      exact Bool.of_not_eq_true hp

/-- dropWhile is the identity when the head does not satisfy the predicate. -/
theorem dropWhile_eq_self_of_head {p : Char → Bool} {l : Str}
    (h : ∀ c, l.head? = some c → p c = false) : l.dropWhile p = l := by
  cases l with
  | nil => rfl
  | cons a l =>
    have := h a rfl
    rw [List.dropWhile_cons_of_neg (by simp [this])]

/-- When nonempty, a dropWhile result has the same last element as the input. -/
theorem getLast?_dropWhile {p : Char → Bool} :
    ∀ (l : Str), l.dropWhile p ≠ [] → (l.dropWhile p).getLast? = l.getLast? := by
  intro l
  induction l with
  | nil => intro h; simp [List.dropWhile] at h
  | cons a l ih =>
    intro h
    by_cases hp : p a
    · rw [List.dropWhile_cons_of_pos hp] at h ⊢
      have hl : l ≠ [] := by
        intro he
        rw [he] at h
        simp [List.dropWhile] at h
      rw [ih h, List.getLast?_cons]
      cases l with
      | nil => exact absurd rfl hl
      | cons b l => simp [List.getLast?_cons]
    · rw [List.dropWhile_cons_of_neg hp]

/-- pyStrip is the identity on strings whose two ends are not whitespace. -/
theorem pyStrip_eq_self {s : Str}
    (h1 : ∀ c, s.head? = some c → c.isWhitespace = false)
    (h2 : ∀ c, s.getLast? = some c → c.isWhitespace = false) : pyStrip s = s := by
  unfold pyStrip
  rw [dropWhile_eq_self_of_head h1]
  rw [dropWhile_eq_self_of_head (fun c hc => h2 c (by rwa [List.head?_reverse] at hc))]
  exact s.reverse_reverse

/-- The last character of a pyStrip result is not whitespace. -/
theorem pyStrip_getLast_not_ws {s : Str} {c : Char}
    (h : (pyStrip s).getLast? = some c) : c.isWhitespace = false := by
  unfold pyStrip at h
  rw [List.getLast?_reverse] at h
  exact head?_dropWhile _ c h

/-- The first character of a pyStrip result is not whitespace. -/
theorem pyStrip_head_not_ws {s : Str} {c : Char}
    (h : (pyStrip s).head? = some c) : c.isWhitespace = false := by
  unfold pyStrip at h
  rw [List.head?_reverse] at h
  by_cases hn : (s.dropWhile Char.isWhitespace).reverse.dropWhile Char.isWhitespace = []
  · rw [hn] at h
    simp at h
  · rw [getLast?_dropWhile _ hn, List.getLast?_reverse] at h
    exact head?_dropWhile _ c h

/-- pyLower is idempotent. -/
theorem pyLower_idem (s : Str) : pyLower (pyLower s) = pyLower s := by
  unfold pyLower
  rw [List.map_map]
  exact List.map_congr_left (fun c _ => charToLower_idem c)

/-! ## Claim C10: idempotence of extension normalization -/

/-- Every output of `_normalize_extension` is a fixed point of it: it is
empty, or it is dot-headed, lower-case, and whitespace-free at both ends. -/
theorem normalize_fixed {o : Str}
    (h : o = [] ∨ (startsWithDot o = true ∧ pyLower o = o ∧
      (∀ c, o.getLast? = some c → c.isWhitespace = false))) :
    _normalize_extension o = o := by
  rcases h with h | ⟨hd, hl, hw⟩
  · rw [h]
    rfl
  · cases o with
    | nil => simp [startsWithDot] at hd
    | cons a rest =>
      have ha : a = '.' := by simpa [startsWithDot] using hd
      have hstrip : pyStrip (a :: rest) = a :: rest := by
        refine pyStrip_eq_self (fun c hc => ?_) hw
        simp at hc
        rw [← hc, ha]
        decide
      unfold _normalize_extension
      rw [hstrip, hl]
      simp [startsWithDot, ha]

/-- The output of `_normalize_extension` satisfies the fixed-point
description used in `normalize_fixed`. -/
theorem normalize_output_props (s : Str) :
    _normalize_extension s = [] ∨
      (startsWithDot (_normalize_extension s) = true ∧
       pyLower (_normalize_extension s) = _normalize_extension s ∧
       (∀ c, (_normalize_extension s).getLast? = some c → c.isWhitespace = false)) := by
  unfold _normalize_extension
  by_cases he : pyLower (pyStrip s) = []
  · left
    simp [he]
  · right
    have hlow : pyLower (pyLower (pyStrip s)) = pyLower (pyStrip s) := pyLower_idem _
    have hlast : ∀ c, (pyLower (pyStrip s)).getLast? = some c → c.isWhitespace = false := by
      intro c hc
      unfold pyLower at hc
      rw [List.getLast?_map] at hc
      cases hg : (pyStrip s).getLast? with
      | none => rw [hg] at hc; simp at hc
      | some b =>
        rw [hg] at hc
        simp at hc
        rw [← hc]
        exact charToLower_not_ws (pyStrip_getLast_not_ws hg)
    by_cases hd : startsWithDot (pyLower (pyStrip s))
    · simp only [if_neg he, if_pos hd]
      exact ⟨hd, hlow, hlast⟩
    · simp only [if_neg he, if_neg hd]
      refine ⟨rfl, ?_, ?_⟩
      · show Char.toLower '.' :: pyLower (pyLower (pyStrip s)) = '.' :: pyLower (pyStrip s)
        rw [hlow]
        rfl
      · intro c hc
        cases hE : pyLower (pyStrip s) with
        | nil => exact absurd hE he
        | cons b rest =>
          rw [hE] at hc
          rw [List.getLast?_cons_cons] at hc
          apply hlast c
          rw [hE]
          exact hc

/-- Claim C10: extension normalization is idempotent — for every string s,
normalizing twice equals normalizing once (the output is already trimmed,
lower-case, and either empty or dot-prefixed, so it is a fixed point). -/
theorem C10_normalize_idempotent (s : Str) :
    _normalize_extension (_normalize_extension s) = _normalize_extension s :=
  normalize_fixed (normalize_output_props s)

/-! ## Lemmas about suffix decomposition and the candidate list -/

/-- Splitting a dot-free string yields the whole string as the only piece. -/
theorem splitOnDot_no_dot : ∀ (l : Str), (∀ c ∈ l, ¬ c = '.') → splitOnDot l = [l] := by
  intro l
  induction l with
  | nil => intro _; rfl
  | cons a l ih =>
    intro h
    have ha : ¬ a = '.' := h a (List.mem_cons_self a l)
    unfold splitOnDot
    rw [if_neg ha, ih (fun c hc => h c (List.mem_cons_of_mem a hc))]

/-- A dot-free name has no suffixes. -/
theorem suffixes_no_dot {name : Str} (h : ∀ c ∈ name, ¬ c = '.') : suffixes name = [] := by
  unfold suffixes
  have hlast : ¬ name.getLast? = some '.' := by
    intro he
    exact h '.' (List.mem_of_getLast?_eq_some he) rfl
  rw [if_neg hlast, dropWhile_eq_self_of_head (p := fun c => c = '.')
    (fun c hc => by
      cases name with
      | nil => simp at hc
      | cons a l =>
        simp at hc
        simp [← hc]
        exact h a (List.mem_cons_self a l)), splitOnDot_no_dot name h]
  rfl

/-- Joining a dropped tail never lengthens the joined list. -/
theorem flatten_drop_length_le : ∀ (l : List Str) (i : Nat),
    ((l.drop i).flatten).length ≤ (l.flatten).length := by
  intro l
  induction l with
  | nil => intro i; simp
  | cons s rest ih =>
    intro i
    cases i with
    | zero => exact Nat.le_refl _
    | succ j =>
      rw [List.drop_succ_cons]
      calc ((rest.drop j).flatten).length ≤ (rest.flatten).length := ih j
        _ ≤ ((s :: rest).flatten).length := by simp

/-- Recursive characterisation of the candidate list. -/
theorem candList_cons (s : Str) (rest : List Str) :
    candList (s :: rest) = (s ++ rest.flatten) :: candList rest := by
  unfold candList
  rw [show (s :: rest).length = rest.length + 1 from rfl, List.range_succ_eq_map]
  simp [List.map_map, Function.comp_def]

/-- The candidate list is ordered by non-increasing length (each candidate is
a joined tail of the suffix list). -/
theorem candList_pairwise : ∀ (l : List Str),
    List.Pairwise (fun a b : Str => b.length ≤ a.length) (candList l) := by
  intro l
  induction l with
  | nil => unfold candList; simp
  | cons s rest ih =>
    rw [candList_cons]
    refine List.Pairwise.cons ?_ ih
    intro b hb
    unfold candList at hb
    simp only [List.mem_map, List.mem_range] at hb
    obtain ⟨i, _, hbe⟩ := hb
    rw [← hbe]
    calc ((rest.drop i).flatten).length ≤ (rest.flatten).length :=
          flatten_drop_length_le rest i
      _ ≤ (s ++ rest.flatten).length := by simp

/-- The stable length-descending sort fixes a list already ordered by
non-increasing length. -/
theorem sortedLenDesc_eq_self : ∀ {l : List Str},
    List.Pairwise (fun a b : Str => b.length ≤ a.length) l → pySortedLenDesc l = l := by
  intro l
  induction l with
  | nil => intro _; rfl
  | cons x l ih =>
    intro h
    show insLenDesc x (pySortedLenDesc l) = x :: l
    rw [ih h.of_cons]
    cases l with
    | nil => rfl
    | cons y ys =>
      unfold insLenDesc
      rw [if_neg (Nat.not_lt.mpr (List.rel_of_pairwise_cons h (List.mem_cons_self y ys)))]

/-! ## Claim C8: names with no extension -/

/-- Claim C8: for every filename with no dots, classification yields the
single candidate empty string; if the index contains a wildcard entry for the
empty extension that category is returned, otherwise the catch-all is
returned. -/
theorem C8_no_extension (name : Str) (ext_map : List (Str × Str)) (other : Str)
    (hnd : ∀ c ∈ name, ¬ c = '.') :
    _extension_candidates name = [[]] ∧
      _decide_folder name ext_map other = (dictGet? ext_map []).getD other := by
  have hs : suffixes name = [] := suffixes_no_dot hnd
  have hcand : _extension_candidates name = [[]] := by
    unfold _extension_candidates
    rw [hs]
    rfl
  refine ⟨hcand, ?_⟩
  unfold _decide_folder
  rw [hcand]
  rw [show pySortedLenDesc [[]] = [[]] from rfl]
  unfold firstMatch
  rw [show _normalize_extension [] = ([] : Str) from rfl]
  cases h : dictGet? ext_map [] with
  | none => rfl
  | some f => rfl

/-- Closed instance of C8: a dot-free name with a wildcard entry present. -/
theorem C8_witness :
    _extension_candidates ("README".data) = [[]] ∧
      _decide_folder ("README".data) [([], "Misc".data)] ("Other".data) =
        (dictGet? [([], "Misc".data)] []).getD ("Other".data) :=
  C8_no_extension ("README".data) [([], "Misc".data)] ("Other".data) (by decide)

/-! ## Claim C1: compound suffixes are classified as a unit -/

/-- Claim C1: for every filename whose (full, multi-part) compound suffix is
a key of the extension index, classify returns the category of that compound
suffix — not the category of the trailing atomic extension alone — because
candidates are tried longest first and the full compound is the longest
candidate. -/
theorem C1_compound_suffix (name : Str) (ext_map : List (Str × Str)) (other cat : Str)
    (h2 : 2 ≤ (suffixes name).length)
    (hkey : dictGet? ext_map
      (_normalize_extension (((suffixes name).map pyLower).flatten)) = some cat) :
    _decide_folder name ext_map other = cat := by
  have hne : ¬ ((suffixes name).map pyLower).isEmpty = true := by
    cases h : suffixes name with
    | nil => rw [h] at h2; simp at h2
    | cons a l => simp
  have hcand : _extension_candidates name = candList ((suffixes name).map pyLower) := by
    unfold _extension_candidates
    rw [if_neg hne]
  obtain ⟨s, rest, hcons⟩ : ∃ s rest, (suffixes name).map pyLower = s :: rest := by
    cases h : (suffixes name).map pyLower with
    | nil => rw [h] at hne; simp at hne
    | cons s rest => exact ⟨s, rest, rfl⟩
  unfold _decide_folder
  rw [hcand, sortedLenDesc_eq_self (candList_pairwise _), hcons, candList_cons]
  have hflat : s ++ rest.flatten = (((suffixes name).map pyLower)).flatten := by
    rw [hcons]
    simp
  show (match firstMatch ((s ++ rest.flatten) :: candList rest) ext_map with
    | some folder => folder
    | none => match dictGet? ext_map [] with
      | some folder => folder
      | none => other) = cat
  unfold firstMatch
  rw [hflat, hkey]

/-- Closed instance of C1: with category B holding `gz` and category A
holding `tar.gz`, the name `x.tar.gz` classifies to A (the compound), not to
B (the trailing atomic extension). -/
theorem C1_witness :
    _decide_folder ("x.tar.gz".data)
      (_build_extension_map [("B".data, ["gz".data]), ("A".data, ["tar.gz".data])])
      ("Other".data) = "A".data :=
  C1_compound_suffix _ _ _ _ (by decide) (by decide)

/-! ## Claim C5: duplicate extensions and last-writer-wins -/

/-- Folding a list of (key, value) writes into a dict. -/
def insertAll (m : List (Str × Str)) (ps : List (Str × Str)) : List (Str × Str) :=
  ps.foldl (fun acc q => dictInsert acc q.1 q.2) m

/-- The flattened sequence of (normalized extension, category) writes
performed by `_build_extension_map`, in iteration order. -/
def writeSeq (mappings : List (Str × List Str)) : List (Str × Str) :=
  mappings.flatMap (fun p => p.2.map (fun e => (_normalize_extension e, p.1)))

/-- Spec-side definition (from the spec's words, for comparison with the
code): the category of the last write of a normalized extension across the
mapping's iteration order. -/
def specLastWriterCategory (mappings : List (Str × List Str)) (key : Str) : Option Str :=
  ((writeSeq mappings).reverse.find? (fun q => decide (q.1 = key))).map (fun q => q.2)

/-- Dict lookup after a dict write. -/
theorem dictGet_dictInsert :
    ∀ (m : List (Str × Str)) (k v key : Str),
      dictGet? (dictInsert m k v) key = if k = key then some v else dictGet? m key := by
  intro m
  induction m with
  | nil =>
    intro k v key
    by_cases h : k = key <;> simp [dictInsert, dictGet?, h]
  | cons p rest ih =>
    intro k v key
    obtain ⟨k', v'⟩ := p
    by_cases hk : k' = k
    · subst hk
      by_cases h : k' = key
      · subst h
        simp [dictInsert, dictGet?]
      · simp [dictInsert, dictGet?, h]
    · by_cases h : k' = key
      · subst h
        have hne : ¬ k = k' := fun he => hk he.symm
        simp [dictInsert, dictGet?, hk, hne]
      · simp [dictInsert, dictGet?, hk, h, ih]

/-- Lookup after a sequence of writes returns the value of the most recent
write of the key, falling back to the original dict. -/
theorem insertAll_get :
    ∀ (ps : List (Str × Str)) (m : List (Str × Str)) (key : Str),
      dictGet? (insertAll m ps) key =
        match ps.reverse.find? (fun q => decide (q.1 = key)) with
        | some q => some q.2
        | none => dictGet? m key := by
  intro ps
  induction ps with
  | nil => intro m key; rfl
  | cons q ps ih =>
    intro m key
    show dictGet? (insertAll (dictInsert m q.1 q.2) ps) key = _
    rw [ih, List.reverse_cons, List.find?_append]
    cases hr : ps.reverse.find? (fun r => decide (r.1 = key)) with
    | some r => rfl
    | none =>
      rw [dictGet_dictInsert]
      by_cases h : q.1 = key
      · simp [List.find?, h]
      · simp [List.find?, h]

/-- Building the extension map is the fold of the flattened write sequence. -/
theorem build_eq_insertAll (mappings : List (Str × List Str)) :
    _build_extension_map mappings = insertAll [] (writeSeq mappings) := by
  suffices h : ∀ (ms : List (Str × List Str)) (m0 : List (Str × Str)),
      ms.foldl (fun m p => p.2.foldl
        (fun m2 e => dictInsert m2 (_normalize_extension e) p.1) m) m0
        = insertAll m0 (writeSeq ms) by
    exact h mappings []
  intro ms
  induction ms with
  | nil => intro m0; rfl
  | cons p ms ih =>
    intro m0
    show ms.foldl _ (p.2.foldl _ m0) = insertAll m0 (writeSeq (p :: ms))
    rw [ih]
    show insertAll (p.2.foldl
      (fun m2 e => dictInsert m2 (_normalize_extension e) p.1) m0) (writeSeq ms)
      = insertAll m0 (writeSeq (p :: ms))
    unfold insertAll writeSeq
    rw [List.flatMap_cons, List.foldl_append, List.foldl_map]

/-- Claim C5: for every extension that appears under more than one category,
the built index maps its normalized form to the category that wrote it last
in the mapping's iteration order (last-writer-wins), and map construction is
total, so no error is raised on duplicates.  Stated for every key: lookup in
the built index equals the spec-side last-writer function. -/
theorem C5_last_writer_wins (mappings : List (Str × List Str)) (key : Str) :
    dictGet? (_build_extension_map mappings) key = specLastWriterCategory mappings key := by
  rw [build_eq_insertAll, insertAll_get]
  unfold specLastWriterCategory
  cases h : (writeSeq mappings).reverse.find? (fun q => decide (q.1 = key)) with
  | none => rfl
  | some q => rfl

/-! ## Claims C2 and C9: the collision loop of _resolve_destination -/

/-- Spec-side stem (from the spec's words, for comparison with the code):
the filename with its full, possibly compound, extension removed, so that
stem and extension are a true split of the filename. -/
def specStem (name : Str) : Str :=
  name.take (name.length - ((suffixes name).flatten).length)

/-- Spec-side probe names: `stem-i.ext` with the spec-side stem. -/
def specProbe (name : Str) (i : Nat) : Str :=
  probeName (specStem name) ((suffixes name).flatten) i

/-- The collision loop reaches the first free index: if every probed index
before `m` (from `idx` on) is taken and index `m` is free, the loop returns
the probe at `m`, given enough fuel. -/
theorem resolveLoop_first_free (existsF : Str → Bool) (stem sfx : Str) :
    ∀ (fuel idx m : Nat), idx ≤ m →
      (∀ i, i < m → idx ≤ i → existsF (probeName stem sfx i) = true) →
      existsF (probeName stem sfx m) = false → m - idx < fuel →
      resolveLoop existsF stem sfx fuel idx = some (probeName stem sfx m) := by
  intro fuel
  induction fuel with
  | zero => intro idx m _ _ _ hf; omega
  | succ f ih =>
    intro idx m hle hall hm hf
    by_cases he : idx = m
    · subst he
      show (if existsF (probeName stem sfx idx) = true then _ else _) = _
      rw [if_neg (by simp [hm])]
    · have hx : existsF (probeName stem sfx idx) = true := hall idx (by omega) (Nat.le_refl _)
      show (if existsF (probeName stem sfx idx) = true then
        resolveLoop existsF stem sfx f (idx + 1) else _) = _
      rw [if_pos hx]
      exact ih (idx + 1) m (by omega) (fun i hi hge => hall i hi (by omega)) hm (by omega)

/-- The collision loop is still running after `fuel` iterations exactly when
every probed index in that window is taken: the loop has no cap of its own. -/
theorem C9_amended_no_cap (existsF : Str → Bool) (stem sfx : Str) :
    ∀ (fuel idx : Nat),
      resolveLoop existsF stem sfx fuel idx = none ↔
        ∀ j, j < fuel → existsF (probeName stem sfx (idx + j)) = true := by
  intro fuel
  induction fuel with
  | zero =>
    intro idx
    constructor
    · intro _ j hj
      omega
    · intro _
      rfl
  | succ f ih =>
    intro idx
    by_cases h : existsF (probeName stem sfx idx) = true
    · have hstep : resolveLoop existsF stem sfx (f + 1) idx
          = resolveLoop existsF stem sfx f (idx + 1) := by
        show (if existsF (probeName stem sfx idx) = true then _ else _) = _
        rw [if_pos h]
      rw [hstep]
      constructor
      · intro hnone j hj
        cases j with
        | zero => simpa using h
        | succ i =>
          have hi := (ih (idx + 1)).mp hnone i (by omega)
          rw [show idx + 1 + i = idx + (i + 1) from by omega] at hi
          exact hi
      · intro hall
        apply (ih (idx + 1)).mpr
        intro j hj
        have hji := hall (j + 1) (by omega)
        rw [show idx + (j + 1) = idx + 1 + j from by omega] at hji
        exact hji
    · have hstep : resolveLoop existsF stem sfx (f + 1) idx
          = some (probeName stem sfx idx) := by
        show (if existsF (probeName stem sfx idx) = true then _ else _) = _
        rw [if_neg h]
      rw [hstep]
      constructor
      · intro hc
        exact absurd hc (by simp)
      · intro hall
        exact absurd (hall 0 (by omega)) (by simpa using h)

/-- Helper for the C9 counterexample: under an oracle where every path
exists, the loop is still running after any amount of fuel. -/
theorem resolveLoop_const_true (stem sfx : Str) :
    ∀ (fuel idx : Nat), resolveLoop (fun _ => true) stem sfx fuel idx = none := by
  intro fuel
  induction fuel with
  | zero => intro idx; rfl
  | succ f ih =>
    intro idx
    show (if ((fun _ : Str => true) (probeName stem sfx idx)) = true then
      resolveLoop (fun _ : Str => true) stem sfx f (idx + 1)
      else some (probeName stem sfx idx)) = none
    rw [if_pos rfl]
    exact ih (idx + 1)

/-- Counterexample to claim C9: with every candidate reported as existing,
the resolver has performed 100001 probe iterations and is still looping — it
has neither produced a result nor failed with a per-file error, so no cap at
100000 (or anywhere) exists in the code. -/
theorem C9_counterexample :
    _resolve_destination (fun _ => true) ("a.txt".data) 100001 = none := by
  show (if ((fun _ : Str => true) ("a.txt".data)) = true then
    resolveLoop (fun _ : Str => true) (pyStem ("a.txt".data))
      ((suffixes ("a.txt".data)).flatten) 100001 1 else _) = none
  rw [if_pos rfl]
  exact resolveLoop_const_true _ _ _ _

/-- Closed instance of the amended C9 statement. -/
theorem C9_witness :
    resolveLoop (fun _ => true) ("a".data) (".txt".data) 3 1 = none :=
  (C9_amended_no_cap (fun _ => true) ("a".data) (".txt".data) 3 1).mpr
    (fun _ _ => rfl)

/-- Counterexample to claim C2: for the compound name `a.tar.gz` already
present at the destination, the code probes `a.tar-1.tar.gz` — the probed
stem is the pathlib stem (only the last suffix removed), so stem and
extension are not a split of the filename and the probe differs from the
spec-side `a-1.tar.gz`. -/
theorem C2_counterexample :
    _resolve_destination (fun s => decide (s = "a.tar.gz".data)) ("a.tar.gz".data) 5
        = some ("a.tar-1.tar.gz".data) ∧
      specProbe ("a.tar.gz".data) 1 = "a-1.tar.gz".data ∧
      ¬ ("a.tar-1.tar.gz".data : Str) = "a-1.tar.gz".data := by
  refine ⟨by decide, by decide, by decide⟩

/-- Amended claim C2: if the destination path for the desired filename does
not exist it is returned unchanged; otherwise the resolver probes
`stem-i ++ ext` — where `stem` is the pathlib stem (the name minus its final
atomic extension) and `ext` is the concatenation of all its extensions — and
returns the probe at the first free counter value. -/
theorem C2_amended_first_free (existsF : Str → Bool) (filename : Str) (fuel m : Nat) :
    (existsF filename = false →
      _resolve_destination existsF filename fuel = some filename) ∧
    (existsF filename = true → 1 ≤ m → m ≤ fuel →
      (∀ i, i < m → 1 ≤ i →
        existsF (probeName (pyStem filename) ((suffixes filename).flatten) i) = true) →
      existsF (probeName (pyStem filename) ((suffixes filename).flatten) m) = false →
      _resolve_destination existsF filename fuel
        = some (probeName (pyStem filename) ((suffixes filename).flatten) m)) := by
  constructor
  · intro h
    unfold _resolve_destination
    rw [if_neg (by simp [h])]
  · intro h1 hm hmf hall hfree
    unfold _resolve_destination
    rw [if_pos h1]
    exact resolveLoop_first_free existsF _ _ fuel 1 m hm
      (fun i hi hge => hall i hi hge) hfree (by omega)

/-- Closed instance of the amended C2 statement: with `photo.jpg` and
`photo-1.jpg` taken, resolving `photo.jpg` returns `photo-2.jpg`. -/
theorem C2_witness :
    _resolve_destination
      (fun s => decide (s = "photo.jpg".data ∨ s = "photo-1.jpg".data))
      ("photo.jpg".data) 5 = some ("photo-2.jpg".data) := by
  have h := (C2_amended_first_free
    (fun s => decide (s = "photo.jpg".data ∨ s = "photo-1.jpg".data))
    ("photo.jpg".data) 5 2).2 (by decide) (by decide) (by decide)
    (by decide) (by decide)
  rw [h]
  decide

/-! ## Claim C6: the minimum-age rule of the settling filter -/

/-- Claim C6: for every file that passes the other settling rules (not in the
skip-set, not excluded by the hidden policy, no transient extension, a
regular file whose stat succeeds), the file is skipped exactly when its time
since last modification is strictly less than the configured minimum age. -/
theorem C6_min_age (dir : FPath) (name : Str) (config : Config) (st : FSState)
    (now t : Int)
    (h1 : ¬ name ∈ SKIP_NAMES)
    (h2 : (config.ignore_hidden && startsWithDot name) = false)
    (h3 : ¬ pyLower (pySuffix name) ∈ TRANSIENT_EXTENSIONS)
    (h4 : (dir ++ [name]) ∈ st.files)
    (h5 : st.mtime (dir ++ [name]) = some t) :
    _should_skip dir name config st now = decide (now - t < config.min_age_seconds) := by
  unfold _should_skip
  rw [if_neg h1, if_neg (by simp [h2]), if_neg h3, if_neg (by simp [h4]), h5]

/-! Shared concrete fixtures for the organize_file claims. -/

/-- A concrete downloads directory. -/
def exDl : FPath := ["Downloads".data]

/-- A concrete state: one eligible file `Downloads/a.txt`, the downloads
directory itself, every mtime 0. -/
def exSt : FSState :=
  { files := [["Downloads".data, "a.txt".data]],
    dirs := [["Downloads".data]],
    mtime := fun _ => some 0 }

/-- A concrete extension index mapping `.txt` to `Documents`. -/
def exMap : List (Str × Str) := [(".txt".data, "Documents".data)]

/-- A concrete configuration with dry-run enabled. -/
def exCfgDry : Config :=
  { downloads_dir := exDl, mappings := [], dry_run := true }

/-- A concrete configuration with dry-run disabled. -/
def exCfgLive : Config :=
  { downloads_dir := exDl, mappings := [] }

/-- An environment where no filesystem primitive fails. -/
def exEnvOk : Env := { mkdirFails := fun _ => false, moveFails := fun _ _ => false }

/-- An environment where creating a directory fails (for example with
permission denied). -/
def exEnvMkdirFails : Env := { mkdirFails := fun _ => true, moveFails := fun _ _ => false }

/-- Closed instance of C6: `Downloads/a.txt`, modified at time 0, examined at
time 10 with the default minimum age of 3, is not skipped. -/
theorem C6_witness :
    _should_skip exDl ("a.txt".data) exCfgLive exSt 10
      = decide ((10 : Int) - 0 < exCfgLive.min_age_seconds) :=
  C6_min_age exDl ("a.txt".data) exCfgLive exSt 10 0
    (by decide) (by decide) (by decide) (by decide) rfl

/-! ## Helper lemmas about organizeMove -/

/-- organizeMove never returns a raised exception: the source try/except
absorbs every failure of the move call itself. -/
theorem organizeMove_not_raised (dir : FPath) (name : Str) (config : Config)
    (st1 : FSState) (env : Env) (dd : FPath) (fuel : Nat) :
    runRaised (organizeMove dir name config st1 env dd fuel) = false := by
  unfold organizeMove
  split
  · rfl
  · split
    · rfl
    · split
      · rfl
      · split
        · rfl
        · rfl

/-- When the desired name is free at the destination, no self-move occurs,
dry-run is off and the move primitive succeeds, organizeMove moves the file
there. -/
theorem organizeMove_success (dir : FPath) (name : Str) (config : Config)
    (st1 : FSState) (env : Env) (dd : FPath) (fuel : Nat)
    (hfree : fsExists st1 (dd ++ [name]) = false)
    (hneq : ¬ dd ++ [name] = dir ++ [name])
    (hdry : config.dry_run = false)
    (hmv : env.moveFails (dir ++ [name]) (dd ++ [name]) = false) :
    organizeMove dir name config st1 env dd fuel
      = some (.ok (some (dd ++ [name]), moveFile st1 (dir ++ [name]) (dd ++ [name]))) := by
  have hres : _resolve_destination (fun f => fsExists st1 (dd ++ [f])) name fuel
      = some name := by
    unfold _resolve_destination
    rw [if_neg (by simp [hfree])]
  unfold organizeMove
  simp only [hres]
  rw [if_neg hneq, if_neg (by simp [hdry]), if_neg (by simp [hmv])]

/-- In dry-run mode organizeMove leaves the file list unchanged, and it
reports the same destination that a non-dry-run run with a succeeding move
primitive would report. -/
theorem organizeMove_dry (dir : FPath) (name : Str) (config : Config)
    (st1 : FSState) (env : Env) (dd : FPath) (fuel : Nat)
    (hdry : config.dry_run = true)
    (hmv : ∀ p q, env.moveFails p q = false) :
    (∀ d st', organizeMove dir name config st1 env dd fuel = some (.ok (d, st'))
      → st'.files = st1.files)
    ∧ runDest (organizeMove dir name config st1 env dd fuel)
      = runDest (organizeMove dir name { config with dry_run := false } st1 env dd fuel) := by
  unfold organizeMove
  split
  · refine ⟨fun d st' h => ?_, rfl⟩
    simp at h
  · split
    · refine ⟨fun d st' h => ?_, rfl⟩
      simp at h
      rw [← h.2]
    · rw [if_neg (by simp), if_neg (by simp [hmv])]
      refine ⟨fun d st' h => ?_, rfl⟩
      simp at h
      rw [← h.2]

/-- Creating a directory adds only paths no longer than the directory
itself, so a strictly longer non-existent path stays non-existent. -/
theorem fsExists_mkdirParents_longer (st : FSState) (p q : FPath)
    (h : fsExists st q = false) (hlen : p.length < q.length) :
    fsExists { st with dirs := mkdirParents st.dirs p } q = false := by
  unfold fsExists at h ⊢
  unfold mkdirParents
  simp only [Bool.or_eq_false_iff, decide_eq_false_iff_not] at h ⊢
  refine ⟨h.1, ?_⟩
  intro hmem
  rw [List.mem_append] at hmem
  rcases hmem with hm | hm
  · exact h.2 hm
  · rw [List.mem_filter] at hm
    rcases hm with ⟨hm, _⟩
    rw [List.mem_map] at hm
    obtain ⟨i, hi, hq⟩ := hm
    rw [List.mem_range] at hi
    have hle : q.length ≤ p.length := by
      rw [← hq, List.length_take]
      omega
    omega

/-! ## Claim C7: the hidden-file policy -/

/-- Claim C7: when the hidden-file policy is enabled, every file whose name
starts with the dot marker is skipped untouched regardless of extension;
when the policy is disabled, the filter result is exactly the remaining
rules (transient extension, regular-file check, minimum age) — the leading
dot is immaterial — and a file passing them is classified by its extension
and moved to its category folder (given the usual success side conditions on
directory creation, collision freedom, no self-move, and the move
primitive). -/
theorem C7_hidden_policy (dir : FPath) (name : Str) (config : Config)
    (ext_map : List (Str × Str)) (st : FSState) (env : Env) (now : Int) (fuel : Nat) :
    (config.ignore_hidden = true → startsWithDot name = true →
      organize_file dir name config ext_map st env now fuel = some (.ok (none, st)))
    ∧ (config.ignore_hidden = false → ¬ name ∈ SKIP_NAMES →
      _should_skip dir name config st now =
        (decide (pyLower (pySuffix name) ∈ TRANSIENT_EXTENSIONS) ||
         decide (¬ (dir ++ [name]) ∈ st.files) ||
         (match st.mtime (dir ++ [name]) with
          | none => true
          | some t => decide (now - t < config.min_age_seconds))))
    ∧ (config.ignore_hidden = false →
      _should_skip dir name config st now = false →
      (fsExists st (destDirOf config name ext_map) = false →
        env.mkdirFails (destDirOf config name ext_map) = false) →
      fsExists st (destDirOf config name ext_map ++ [name]) = false →
      ¬ destDirOf config name ext_map ++ [name] = dir ++ [name] →
      config.dry_run = false →
      env.moveFails (dir ++ [name]) (destDirOf config name ext_map ++ [name]) = false →
      runDest (organize_file dir name config ext_map st env now fuel)
          = some (some (destDirOf config name ext_map ++ [name]))
        ∧ (destDirOf config name ext_map ++ [name])
            ∈ (runFiles (organize_file dir name config ext_map st env now fuel)).getD []) := by
  refine ⟨?_, ?_, ?_⟩
  · intro hih hdot
    have hskip : _should_skip dir name config st now = true := by
      unfold _should_skip
      by_cases h1 : name ∈ SKIP_NAMES
      · rw [if_pos h1]
      · rw [if_neg h1, if_pos (by simp [hih, hdot])]
    unfold organize_file
    rw [if_pos hskip]
  · intro hih hns
    unfold _should_skip
    rw [if_neg hns, if_neg (by simp [hih])]
    by_cases h3 : pyLower (pySuffix name) ∈ TRANSIENT_EXTENSIONS
    · rw [if_pos h3]
      simp [h3]
    · rw [if_neg h3]
      by_cases h4 : (dir ++ [name]) ∈ st.files
      · rw [if_neg (by simp [h4])]
        simp [h3, h4]
      · rw [if_pos (by simp [h4])]
        simp [h3, h4]
  · intro hih hskip hmk hfree hneq hdry hmv
    unfold organize_file
    rw [if_neg (by simp [hskip])]
    by_cases hex : fsExists st (destDirOf config name ext_map) = true
    · rw [if_pos hex,
        organizeMove_success dir name config st env (destDirOf config name ext_map)
          fuel hfree hneq hdry hmv]
      constructor
      · rfl
      · simp [runFiles, moveFile]
    · have hmkf := hmk (by simpa using hex)
      rw [if_neg hex, if_neg (by simp [hmkf])]
      have hfree1 : fsExists
          { st with dirs := mkdirParents st.dirs (destDirOf config name ext_map) }
          (destDirOf config name ext_map ++ [name]) = false := by
        refine fsExists_mkdirParents_longer st _ _ hfree ?_
        simp
      rw [organizeMove_success dir name config _ env (destDirOf config name ext_map)
        fuel hfree1 hneq hdry hmv]
      constructor
      · rfl
      · simp [runFiles, moveFile]

/-- A concrete configuration with the hidden-file policy disabled. -/
def exCfgNoHide : Config :=
  { downloads_dir := exDl, mappings := [], ignore_hidden := false }

/-- A state holding the hidden file `Downloads/.secret.pdf`. -/
def exStHidden : FSState :=
  { files := [["Downloads".data, ".secret.pdf".data]],
    dirs := [["Downloads".data]],
    mtime := fun _ => some 0 }

/-- An extension index mapping `.pdf` to `Documents`. -/
def exMapPdf : List (Str × Str) := [(".pdf".data, "Documents".data)]

/-- Closed instance of C7: with the policy on, `.secret.pdf` is skipped
untouched; with the policy off, it is moved to `Documents`. -/
theorem C7_witness :
    organize_file exDl (".secret.pdf".data)
        { downloads_dir := exDl, mappings := [] } exMapPdf exStHidden exEnvOk 100 5
      = some (.ok (none, exStHidden))
    ∧ runDest (organize_file exDl (".secret.pdf".data) exCfgNoHide exMapPdf
        exStHidden exEnvOk 100 5)
      = some (some (destDirOf exCfgNoHide (".secret.pdf".data) exMapPdf
          ++ [".secret.pdf".data])) :=
  ⟨(C7_hidden_policy exDl (".secret.pdf".data)
      { downloads_dir := exDl, mappings := [] } exMapPdf exStHidden exEnvOk 100 5).1
      rfl rfl,
   ((C7_hidden_policy exDl (".secret.pdf".data) exCfgNoHide exMapPdf
      exStHidden exEnvOk 100 5).2.2 rfl (by decide) (fun _ => rfl) (by decide)
      (by decide) rfl rfl).1⟩

/-! ## Claim C3: dry-run mode -/

/-- Counterexample to claim C3: in dry-run mode, organizing `Downloads/a.txt`
whose destination directory `Downloads/Documents` does not yet exist CREATES
that directory (the source calls mkdir before the dry-run check), so the
filesystem is not left completely unchanged. -/
theorem C3_counterexample :
    runDirs (organize_file exDl ("a.txt".data) exCfgDry exMap exSt exEnvOk 100 5)
        = some [["Downloads".data], ["Downloads".data, "Documents".data]]
      ∧ ¬ ([["Downloads".data], ["Downloads".data, "Documents".data]] : List FPath)
          = exSt.dirs := by
  refine ⟨by decide, by decide⟩

/-- Amended claim C3: in dry-run mode no file is moved (the file list is
unchanged) and the reported intended destination equals what non-dry-run
mode would produce for the same state when the move primitive succeeds;
however, the destination directory may be created even in dry-run mode. -/
theorem C3_amended_dry_run (dir : FPath) (name : Str) (config : Config)
    (ext_map : List (Str × Str)) (st : FSState) (env : Env) (now : Int) (fuel : Nat)
    (hdry : config.dry_run = true)
    (hmv : ∀ p q, env.moveFails p q = false) :
    (∀ d st', organize_file dir name config ext_map st env now fuel
      = some (.ok (d, st')) → st'.files = st.files)
    ∧ runDest (organize_file dir name config ext_map st env now fuel)
      = runDest (organize_file dir name { config with dry_run := false }
          ext_map st env now fuel) := by
  have e1 : _should_skip dir name { config with dry_run := false } st now
      = _should_skip dir name config st now := rfl
  have e2 : destDirOf { config with dry_run := false } name ext_map
      = destDirOf config name ext_map := rfl
  unfold organize_file
  rw [e1, e2]
  by_cases hskip : _should_skip dir name config st now = true
  · rw [if_pos hskip, if_pos hskip]
    refine ⟨fun d st' h => ?_, rfl⟩
    simp at h
    rw [← h.2]
  · rw [if_neg hskip, if_neg hskip]
    by_cases hex : fsExists st (destDirOf config name ext_map) = true
    · rw [if_pos hex, if_pos hex]
      exact organizeMove_dry dir name config st env
        (destDirOf config name ext_map) fuel hdry hmv
    · rw [if_neg hex, if_neg hex]
      by_cases hmkf : env.mkdirFails (destDirOf config name ext_map) = true
      · rw [if_pos hmkf, if_pos hmkf]
        refine ⟨fun d st' h => ?_, rfl⟩
        simp at h
      · rw [if_neg hmkf, if_neg hmkf]
        exact organizeMove_dry dir name config
          { st with dirs := mkdirParents st.dirs (destDirOf config name ext_map) }
          env (destDirOf config name ext_map) fuel hdry hmv

/-- Closed instance of the amended C3 statement: the dry run over the
concrete state reports the same destination as the real run. -/
theorem C3_witness :
    runDest (organize_file exDl ("a.txt".data) exCfgDry exMap exSt exEnvOk 100 5)
      = runDest (organize_file exDl ("a.txt".data) { exCfgDry with dry_run := false }
          exMap exSt exEnvOk 100 5) :=
  (C3_amended_dry_run exDl ("a.txt".data) exCfgDry exMap exSt exEnvOk 100 5
    rfl (fun _ _ => rfl)).2

/-! ## Claim C4: error absorption at the Mover boundary -/

/-- Counterexample to claim C4: when creating the destination directory
fails (for example permission denied on `Downloads/Documents`), the
exception propagates out of `organize_file` — the source try/except protects
only the `shutil.move` call, so not every per-file failure is absorbed. -/
theorem C4_counterexample :
    runRaised (organize_file exDl ("a.txt".data) exCfgLive exMap exSt
      exEnvMkdirFails 100 5) = true := by
  decide

/-- Amended claim C4: every failure of the move call itself is absorbed at
the Mover boundary and yields a None report (never an exception), but a
failure while creating the destination directory is not absorbed; when
directory creation does not fail (or the directory exists), organize_file
never raises. -/
theorem C4_amended_absorbed (dir : FPath) (name : Str) (config : Config)
    (ext_map : List (Str × Str)) (st : FSState) (env : Env) (now : Int) (fuel : Nat)
    (hmk : fsExists st (destDirOf config name ext_map) = false →
      env.mkdirFails (destDirOf config name ext_map) = false) :
    runRaised (organize_file dir name config ext_map st env now fuel) = false
    ∧ (∀ st1 dd rn,
        _resolve_destination (fun f => fsExists st1 (dd ++ [f])) name fuel = some rn →
        ¬ dd ++ [rn] = dir ++ [name] → config.dry_run = false →
        env.moveFails (dir ++ [name]) (dd ++ [rn]) = true →
        organizeMove dir name config st1 env dd fuel = some (.ok (none, st1))) := by
  constructor
  · unfold organize_file
    by_cases hskip : _should_skip dir name config st now = true
    · rw [if_pos hskip]
      rfl
    · rw [if_neg hskip]
      by_cases hex : fsExists st (destDirOf config name ext_map) = true
      · rw [if_pos hex]
        exact organizeMove_not_raised dir name config st env
          (destDirOf config name ext_map) fuel
      · have hmkf := hmk (by simpa using hex)
        rw [if_neg hex, if_neg (by simp [hmkf])]
        exact organizeMove_not_raised dir name config
          { st with dirs := mkdirParents st.dirs (destDirOf config name ext_map) }
          env (destDirOf config name ext_map) fuel
  · intro st1 dd rn hres hneq hdry hfail
    unfold organizeMove
    simp only [hres]
    rw [if_neg hneq, if_neg (by simp [hdry]), if_pos hfail]

/-- Closed instance of the amended C4 statement: with a working mkdir the
run does not raise. -/
theorem C4_witness :
    runRaised (organize_file exDl ("a.txt".data) exCfgLive exMap exSt
      exEnvOk 100 5) = false :=
  (C4_amended_absorbed exDl ("a.txt".data) exCfgLive exMap exSt exEnvOk 100 5
    (fun _ => rfl)).1

end Organiser
